import Mathlib

/-!
Verification of `paper-fluff-cutter` against its specification.

Strings from the Python source are modelled as `List Char`.  A PDF document
is modelled abstractly as the list of its pages (the byte serialization and
the base64 transport encoding are injective and are modelled as the identity
on that abstraction; the claims under study only concern page counts, page
order and control flow, never the raw bytes).
-/

namespace FluffCutter

/-- The six ASCII whitespace characters recognized by Python's `str.strip()`
(space, tab, newline, carriage return, vertical tab, form feed). -/
def wsChar (c : Char) : Bool :=
  c = ' ' || c = '\t' || c = '\n' || c = '\r' || c = '\x0b' || c = '\x0c'

/-- ASCII lower-casing of one character, as Python's `str.lower()` acts on
the ASCII range. -/
def pyLowerChar (c : Char) : Char :=
  if 'A' ≤ c ∧ c ≤ 'Z' then Char.ofNat (c.toNat + 32) else c

/-- ASCII upper-casing of one character, as Python's `str.upper()` acts on
the ASCII range. -/
def pyUpperChar (c : Char) : Char :=
  if 'a' ≤ c ∧ c ≤ 'z' then Char.ofNat (c.toNat - 32) else c

/-- Python `s.lower()`. -/
def pyLower (s : List Char) : List Char := s.map pyLowerChar

/-- Python `s.upper()`. -/
def pyUpper (s : List Char) : List Char := s.map pyUpperChar

/-- Python `s.strip()` with no argument: remove leading and trailing
whitespace. -/
def pyStrip (s : List Char) : List Char :=
  ((s.dropWhile wsChar).reverse.dropWhile wsChar).reverse

/-- Removal of trailing whitespace only (the second half of `pyStrip`). -/
def stripRight (s : List Char) : List Char :=
  (s.reverse.dropWhile wsChar).reverse

/-- Python `s.split("\n")`: split at every newline, keeping empty pieces;
the empty string yields `[""]`. -/
def splitNl : List Char → List (List Char)
  | [] => [[]]
  | c :: rest =>
    if c = '\n' then [] :: splitNl rest
    else
      match splitNl rest with
      | [] => [[c]]
      | l :: ls => (c :: l) :: ls

/-- Python `"\n".join(lines)`. -/
def intercalateNl : List (List Char) → List Char
  | [] => []
  | [l] => l
  | l :: ls => l ++ '\n' :: intercalateNl ls

/-- Merge of two line lists at the seam: the last line of the first list is
concatenated (with no separator) with the first line of the second list.
`splitNl (a ++ b) = joinLastHead (splitNl a) (splitNl b)`. -/
def joinLastHead : List (List Char) → List (List Char) → List (List Char)
  | [], M => M
  | [x], [] => [x]
  | [x], h :: t => (x ++ h) :: t
  | x :: y :: xs, M => x :: joinLastHead (y :: xs) M

/-- Does a line carry the title marker: Python
`line.strip().upper().startswith("TITLE:")` from `analyzer.analyze_paper`. -/
def marker (line : List Char) : Bool :=
  "TITLE:".toList.isPrefixOf (pyUpper (pyStrip line))

/-- Python `line.split(":", 1)[1]`: the text after the first colon.  (In the
source the index access is only reached on lines that match `marker`, which
guarantees a colon is present.) -/
def afterColon (line : List Char) : List Char :=
  (line.dropWhile (fun c => !(c = ':'))).tail

/-- The title extracted from a matched marker line:
`line.split(":", 1)[1].strip()`. -/
def titleOf (line : List Char) : List Char := pyStrip (afterColon line)

/-- The body assembled from the lines after the matched marker line:
`"\n".join(lines[i + 1 :]).strip()`. -/
def bodyOf (ls : List (List Char)) : List Char := pyStrip (intercalateNl ls)

/-- The sentinel title used when no marker line is found. -/
def unknownTitle : List Char := "Unknown Title".toList

/-- The scanning loop of `analyzer.analyze_paper` (source lines 50-56): walk
the lines; at the first line matching `marker`, take the title from it and
the body from the remaining lines, then break.  If the loop finishes without
a match, the defaults survive: title `"Unknown Title"` and the analysis set
to the raw (unstripped) response. -/
def extractScan (raw : List Char) : List (List Char) → List Char × List Char
  | [] => (unknownTitle, raw)
  | l :: ls => if marker l then (titleOf l, bodyOf ls) else extractScan raw ls

/-- Title/body extraction of `analyzer.analyze_paper`: the loop runs over
`raw_response.strip().split("\n")` (source line 50). -/
def analyze_extract (raw : List Char) : List Char × List Char :=
  extractScan raw (splitNl (pyStrip raw))

/-- Modelled from the spec (§4.3 step 2), for comparison with
`analyze_extract`: scan the lines top-to-bottom for the first line whose
trimmed, case-insensitive form starts with `TITLE:`; the text after that
line's first colon, trimmed, is the title, and all lines strictly after it,
rejoined and trimmed, are the body.  `none` when no line matches. -/
def scanTitleBody : List (List Char) → Option (List Char × List Char)
  | [] => none
  | l :: ls => if marker l then some (titleOf l, bodyOf ls) else scanTitleBody ls

/-- The fixed instruction template `analyzer.ANALYSIS_PROMPT`. -/
def ANALYSIS_PROMPT : List Char :=
  ("You are analyzing an academic paper. Your job is to cut through all the fluff and extract only what matters.\n\nAnswer these three questions concisely and critically:\n\n1. WHY SHOULD I CARE?\n   - What problem does this address?\n   - Why does it matter to the world (not just academia)?\n\n2. WHAT'S THE ACTUAL INNOVATION?\n   - What is the core idea or proposal?\n   - What makes it different from existing work?\n   - Describe it in plain terms, no jargon.\n\n3. IS THE EVIDENCE CONVINCING?\n   - What experiments or evidence do they provide?\n   - Are there obvious gaps or weaknesses?\n   - Does the evidence actually support their claims?\n\nBe brutally honest. If the paper is weak, say so.\nIf it's mostly fluff with a tiny kernel of insight, identify that kernel.\n\nAlso extract the paper's title at the beginning of your response in this format:\nTITLE: [Paper Title]\n\nThen provide your analysis.").toList

/-- The provider as the orchestrator sees it: the `analyze_paper` method
(arguments `pdf_base64`, `filename`, `prompt`) and the `get_model_info`
string.  The remote transport behind `analyze` is the external collaborator;
its reply is the function's value. -/
structure OrchProvider where
  analyze : List Char → List Char → List Char → List Char
  modelInfo : List Char

/-- The record returned by `analyzer.analyze_paper`
(keys `title`, `analysis`, `model_info`). -/
structure AnalysisDict where
  title : List Char
  analysis : List Char
  model_info : List Char
deriving DecidableEq

/-- `analyzer.analyze_paper`, instrumented: besides the result record it
returns the provider value after the call (the source never assigns to the
provider) and the list of argument triples of every remote call performed. -/
def analyze_paper (p : OrchProvider) (pdf_base64 filename : List Char) :
    AnalysisDict × OrchProvider × List (List Char × List Char × List Char) :=
  let raw := p.analyze pdf_base64 filename ANALYSIS_PROMPT
  let tb := analyze_extract raw
  (⟨tb.1, tb.2, p.modelInfo⟩, p, [(pdf_base64, filename, ANALYSIS_PROMPT)])

/-! ## PDF handling (`pdf.py`) -/

/-- `pdf.DEFAULT_MAX_PAGES`. -/
def DEFAULT_MAX_PAGES : Int := 50

/-- `pdf.get_pdf_page_count`: the number of pages of the document. -/
def get_pdf_page_count (pages : List α) : Nat := pages.length

/-- `pdf.truncate_pdf`: a new document collecting pages
`0, 1, ..., min(max_pages, page_count) - 1` of the source document, in that
order (the `for i in range(min(max_pages, len(reader.pages)))` loop).
`max_pages` is a Python `int`, so it may be negative, in which case the
range is empty. -/
def truncate_pdf (pages : List α) (max_pages : Int) : List α :=
  (List.range (min max_pages (pages.length : Int)).toNat).filterMap
    (fun i => pages[i]?)

/-- `pdf.read_pdf_as_base64` (the part past the existence and suffix
checks, which are filesystem preconditions): returns the transported
document, the total page count and the `was_truncated` flag.  Truncation
happens exactly when a page budget is supplied and the total page count
strictly exceeds it. -/
def read_pdf_as_base64 (pages : List α) (max_pages : Option Int) :
    List α × Nat × Bool :=
  let total_pages := pages.length
  match max_pages with
  | some m =>
    if (total_pages : Int) > m then (truncate_pdf pages m, total_pages, true)
    else (pages, total_pages, false)
  | none => (pages, total_pages, false)

/-! ## Retry/degradation controller (`cli.cmd_analyze`, lines 258-293) -/

/-- The size-signature test of `cli.cmd_analyze` line 278:
`"too long" in error_msg.lower() and "token" in error_msg.lower()`. -/
def tokenLimitSig (error_msg : List Char) : Bool :=
  decide ("too long".toList <:+: pyLower error_msg) &&
    decide ("token".toList <:+: pyLower error_msg)

/-- The analysis pipeline of `cli.cmd_analyze` after the PDF has been read:
the provider stub is the sequence of remote-call outcomes (`Except` error
message / reply text, indexed by call number).  Returns the payloads sent on
each remote call (in order) and the outcome: `Except.error` models the
printed error followed by `sys.exit(1)`.  On a first-attempt failure whose
message matches `tokenLimitSig` when the first read was not truncated, the
PDF is re-read with a budget of `DEFAULT_MAX_PAGES` and the analysis is
attempted exactly once more; any other failure, and any failure of the
retry itself, is propagated. -/
def cmd_analyze_core (pages : List α) (max_pages : Option Int)
    (provider : Nat → Except (List Char) (List Char)) :
    List (List α) × Except (List Char) (List Char) :=
  let r1 := read_pdf_as_base64 pages max_pages
  let pdf_base64 := r1.1
  let was_truncated := r1.2.2
  match provider 0 with
  | .ok reply => ([pdf_base64], .ok reply)
  | .error e =>
    if tokenLimitSig e && !was_truncated then
      let r2 := read_pdf_as_base64 pages (some DEFAULT_MAX_PAGES)
      match provider 1 with
      | .ok reply => ([pdf_base64, r2.1], .ok reply)
      | .error retry_error => ([pdf_base64, r2.1], .error retry_error)
    else ([pdf_base64], .error e)

/-! ## Providers (`providers/base.py` and the three variants) -/

/-- The three provider variants registered in `cli.PROVIDERS`. -/
inductive ProviderKind
  | openai
  | anthropic
  | openrouter
deriving DecidableEq

/-- The `default_model` property of each variant. -/
def default_model : ProviderKind → List Char
  | .openai => "gpt-5.2".toList
  | .anthropic => "claude-opus-4-5".toList
  | .openrouter => "anthropic/claude-sonnet-4-5".toList

/-- The `provider_name` property of each variant. -/
def provider_name : ProviderKind → List Char
  | .openai => "OpenAI".toList
  | .anthropic => "Anthropic".toList
  | .openrouter => "OpenRouter".toList

/-- A constructed provider: `BaseLLMProvider.__init__` stores the api key
and the resolved model id. -/
structure Provider where
  kind : ProviderKind
  api_key : List Char
  model : List Char
deriving DecidableEq

/-- `BaseLLMProvider.__init__`: `self.model = model or self.default_model`.
Python `or` falls through both on `None` and on the empty string. -/
def mkProvider (kind : ProviderKind) (api_key : List Char)
    (model : Option (List Char)) : Provider :=
  { kind := kind
    api_key := api_key
    model :=
      match model with
      | some m => if m.isEmpty then default_model kind else m
      | none => default_model kind }

/-- `BaseLLMProvider.get_model_info`:
`f"{self.provider_name} ({self.model})"`. -/
def get_model_info (p : Provider) : List Char :=
  provider_name p.kind ++ " (".toList ++ p.model ++ ")".toList

/-! ## Configuration (`config.py`) -/

/-- The configuration dictionary: the keys `config.py` reads or writes,
each `none` when absent. -/
structure Config where
  openai_api_key : Option (List Char)
  anthropic_api_key : Option (List Char)
  openrouter_api_key : Option (List Char)
  default_provider : Option (List Char)
  openai_model : Option (List Char)
  anthropic_model : Option (List Char)
deriving DecidableEq

/-- The environment variables `config.load_config` consults, plus
`OPENROUTER_API_KEY` (which it never reads), each `none` when unset. -/
structure Env where
  openai_key : Option (List Char)
  anthropic_key : Option (List Char)
  openrouter_key : Option (List Char)
  fluff_cutter_provider : Option (List Char)
  fluff_cutter_openai_model : Option (List Char)
  fluff_cutter_anthropic_model : Option (List Char)
deriving DecidableEq

/-- Python truthiness of `dict.get` / `os.environ.get` on a string-valued
key: present and non-empty. -/
def truthy : Option (List Char) → Bool
  | some s => !s.isEmpty
  | none => false

/-- One overlay step of `config.load_config`: the environment value
replaces the file value only when the environment value is truthy
(`if os.environ.get(NAME): config[key] = os.environ[NAME]`). -/
def envOverlay (envVal fileVal : Option (List Char)) : Option (List Char) :=
  if truthy envVal then envVal else fileVal

/-- `config.load_config`: start from the config file, then overlay
`OPENAI_API_KEY`, `ANTHROPIC_API_KEY`, `FLUFF_CUTTER_PROVIDER`,
`FLUFF_CUTTER_OPENAI_MODEL` and `FLUFF_CUTTER_ANTHROPIC_MODEL`.  No other
key is touched; in particular `openrouter_api_key` comes only from the
file. -/
def load_config (file : Config) (env : Env) : Config :=
  { openai_api_key := envOverlay env.openai_key file.openai_api_key
    anthropic_api_key := envOverlay env.anthropic_key file.anthropic_api_key
    openrouter_api_key := file.openrouter_api_key
    default_provider := envOverlay env.fluff_cutter_provider file.default_provider
    openai_model := envOverlay env.fluff_cutter_openai_model file.openai_model
    anthropic_model := envOverlay env.fluff_cutter_anthropic_model file.anthropic_model }

/-- `config.is_configured`:
`bool(config.get("openai_api_key") or config.get("anthropic_api_key"))`
over the loaded (file + environment) configuration. -/
def is_configured (file : Config) (env : Env) : Bool :=
  truthy (load_config file env).openai_api_key ||
    truthy (load_config file env).anthropic_api_key

/-! ## Character and whitespace lemmas -/

theorem toNat_ofNat_valid {n : Nat} (h : n.isValidChar) :
    (Char.ofNat n).toNat = n := by
  rw [Char.ofNat, dif_pos h]
  rfl

theorem pyUpperChar_eq_colon {c : Char} (h : pyUpperChar c = ':') : c = ':' := by
  unfold pyUpperChar at h
  split at h
  · exfalso
    rename_i hc
    have h1 : 97 ≤ c.toNat := by
      have := hc.1
      rw [Char.le_def, UInt32.le_def] at this
      exact this
    have h2 : c.toNat ≤ 122 := by
      have := hc.2
      rw [Char.le_def, UInt32.le_def] at this
      exact this
    have hv : (c.toNat - 32).isValidChar := Or.inl (by omega)
    have := congrArg Char.toNat h
    rw [toNat_ofNat_valid hv] at this
    have hcol : (':').toNat = 58 := by decide
    omega
  · exact h

theorem wsChar_ne_colon {c : Char} (h : wsChar c = true) : (!(c = ':')) = true := by
  simp only [wsChar, Bool.or_eq_true, decide_eq_true_eq] at h
  rcases h with ((((h | h) | h) | h) | h) | h <;> subst h <;> decide

theorem wsChar_newline : wsChar '\n' = true := by decide

theorem dropWhile_append_all {p : Char → Bool} {w l : List Char}
    (hw : ∀ c ∈ w, p c = true) :
    (w ++ l).dropWhile p = l.dropWhile p := by
  rw [List.dropWhile_append]
  have : w.dropWhile p = [] := List.dropWhile_eq_nil_iff.mpr hw
  simp [this]

theorem dropWhile_append_left {p : Char → Bool} {w : List Char} (l : List Char)
    (hw : w.dropWhile p ≠ []) :
    (w ++ l).dropWhile p = w.dropWhile p ++ l := by
  rw [List.dropWhile_append]
  simp only [List.isEmpty_iff]
  rw [if_neg hw]

theorem stripRight_append_ws {w : List Char} (l : List Char)
    (hw : ∀ c ∈ w, wsChar c = true) :
    stripRight (l ++ w) = stripRight l := by
  unfold stripRight
  rw [List.reverse_append, dropWhile_append_all]
  intro c hc
  exact hw c (List.mem_reverse.mp hc)

theorem pyStrip_eq_stripRight (s : List Char) :
    pyStrip s = stripRight (s.dropWhile wsChar) := rfl

theorem pyStrip_ws_left {w : List Char} (l : List Char)
    (hw : ∀ c ∈ w, wsChar c = true) :
    pyStrip (w ++ l) = pyStrip l := by
  rw [pyStrip_eq_stripRight, pyStrip_eq_stripRight, dropWhile_append_all hw]

theorem pyStrip_allWs {l : List Char} (hl : ∀ c ∈ l, wsChar c = true) :
    pyStrip l = [] := by
  rw [pyStrip_eq_stripRight, List.dropWhile_eq_nil_iff.mpr hl]
  rfl

theorem pyStrip_ws_right {w : List Char} (l : List Char)
    (hw : ∀ c ∈ w, wsChar c = true) :
    pyStrip (l ++ w) = pyStrip l := by
  by_cases h : l.dropWhile wsChar = []
  · have hl : ∀ c ∈ l, wsChar c = true := List.dropWhile_eq_nil_iff.mp h
    rw [pyStrip_allWs hl, pyStrip_allWs]
    intro c hc
    rcases List.mem_append.mp hc with hc | hc
    · exact hl c hc
    · exact hw c hc
  · rw [pyStrip_eq_stripRight, dropWhile_append_left w h, stripRight_append_ws _ hw,
      pyStrip_eq_stripRight]

theorem pyStrip_isInfix (l : List Char) : pyStrip l <:+: l := by
  have h1 : pyStrip l <+: l.dropWhile wsChar := by
    rw [pyStrip_eq_stripRight, stripRight]
    rw [← List.reverse_suffix]
    simp only [List.reverse_reverse]
    exact List.dropWhile_suffix wsChar
  have h2 : l.dropWhile wsChar <:+ l := List.dropWhile_suffix wsChar
  exact List.infix_iff_prefix_suffix.mpr ⟨l.dropWhile wsChar, h1, h2⟩

/-! ## Marker-line lemmas -/

theorem marker_allWs {l : List Char} (hl : ∀ c ∈ l, wsChar c = true) :
    marker l = false := by
  rw [marker, pyStrip_allWs hl]
  decide

theorem marker_ws_left {w : List Char} (l : List Char)
    (hw : ∀ c ∈ w, wsChar c = true) :
    marker (w ++ l) = marker l := by
  rw [marker, marker, pyStrip_ws_left l hw]

theorem marker_ws_right {w : List Char} (l : List Char)
    (hw : ∀ c ∈ w, wsChar c = true) :
    marker (l ++ w) = marker l := by
  rw [marker, marker, pyStrip_ws_right l hw]

theorem afterColon_ws_left {w : List Char} (l : List Char)
    (hw : ∀ c ∈ w, wsChar c = true) :
    afterColon (w ++ l) = afterColon l := by
  unfold afterColon
  rw [dropWhile_append_all]
  intro c hc
  exact wsChar_ne_colon (hw c hc)

theorem titleOf_ws_left {w : List Char} (l : List Char)
    (hw : ∀ c ∈ w, wsChar c = true) :
    titleOf (w ++ l) = titleOf l := by
  rw [titleOf, titleOf, afterColon_ws_left l hw]

theorem colon_mem_of_marker {l : List Char} (h : marker l = true) : ':' ∈ l := by
  rw [marker] at h
  have hp : "TITLE:".toList <+: pyUpper (pyStrip l) :=
    List.isPrefixOf_iff_prefix.mp h
  obtain ⟨t, ht⟩ := hp
  have h5 : (pyUpper (pyStrip l))[5]? = some ':' := by
    rw [← ht]
    rw [List.getElem?_append_left (by decide : (5 : Nat) < "TITLE:".toList.length)]
    decide
  rw [pyUpper, List.getElem?_map] at h5
  obtain ⟨c, hc, hcu⟩ := Option.map_eq_some'.mp h5
  have hcc : c = ':' := pyUpperChar_eq_colon hcu
  subst hcc
  exact (pyStrip_isInfix l).subset (List.getElem?_mem hc)

theorem dropWhile_colon_ne_nil {l : List Char} (h : marker l = true) :
    l.dropWhile (fun c => !(c = ':')) ≠ [] := by
  intro hnil
  have := List.dropWhile_eq_nil_iff.mp hnil ':' (colon_mem_of_marker h)
  simp at this

theorem tail_append_of_ne_nil {d : List Char} (w : List Char) (hd : d ≠ []) :
    (d ++ w).tail = d.tail ++ w := by
  cases d with
  | nil => exact absurd rfl hd
  | cons x d' => rfl

theorem afterColon_append_ws {l : List Char} (w : List Char)
    (h : marker l = true) :
    afterColon (l ++ w) = afterColon l ++ w := by
  unfold afterColon
  rw [dropWhile_append_left w (dropWhile_colon_ne_nil h),
    tail_append_of_ne_nil w (dropWhile_colon_ne_nil h)]

theorem titleOf_ws_right {w : List Char} (l : List Char)
    (hm : marker l = true) (hw : ∀ c ∈ w, wsChar c = true) :
    titleOf (l ++ w) = titleOf l := by
  rw [titleOf, titleOf, afterColon_append_ws w hm, pyStrip_ws_right _ hw]

/-! ## Line-splitting lemmas -/

theorem splitNl_ne_nil (s : List Char) : splitNl s ≠ [] := by
  cases s with
  | nil => simp [splitNl]
  | cons c rest =>
    rw [splitNl]
    by_cases h : c = '\n'
    · simp [h]
    · rw [if_neg h]
      rcases hr : splitNl rest with _ | ⟨l, ls⟩ <;> simp

theorem joinLastHead_ne_nil {X : List (List Char)} (S : List (List Char))
    (hX : X ≠ []) : joinLastHead X S ≠ [] := by
  match X with
  | [] => exact absurd rfl hX
  | [x] => cases S <;> simp [joinLastHead]
  | x :: y :: xs => simp [joinLastHead]

theorem splitNl_append (a b : List Char) :
    splitNl (a ++ b) = joinLastHead (splitNl a) (splitNl b) := by
  induction a with
  | nil =>
    rcases hb : splitNl b with _ | ⟨h, t⟩
    · exact absurd hb (splitNl_ne_nil b)
    · simp [splitNl, joinLastHead, hb]
  | cons c a' ih =>
    rw [List.cons_append, splitNl, splitNl]
    by_cases hc : c = '\n'
    · rw [if_pos hc, if_pos hc, ih]
      rcases ha : splitNl a' with _ | ⟨y, ys⟩
      · exact absurd ha (splitNl_ne_nil a')
      · rw [show joinLastHead ([] :: y :: ys) (splitNl b) =
          [] :: joinLastHead (y :: ys) (splitNl b) from rfl]
    · rw [if_neg hc, if_neg hc, ih]
      rcases ha : splitNl a' with _ | ⟨y, ys⟩
      · exact absurd ha (splitNl_ne_nil a')
      · rcases hb : splitNl b with _ | ⟨h, t⟩
        · exact absurd hb (splitNl_ne_nil b)
        · cases ys with
          | nil => simp [joinLastHead]
          | cons z zs => simp [joinLastHead]

theorem splitNl_subset {s : List Char} :
    ∀ l ∈ splitNl s, ∀ c ∈ l, c ∈ s := by
  induction s with
  | nil =>
    intro l hl
    simp [splitNl] at hl
    subst hl
    intro c hc
    exact absurd hc (List.not_mem_nil c)
  | cons x s' ih =>
    intro l hl c hc
    rw [splitNl] at hl
    by_cases hx : x = '\n'
    · rw [if_pos hx] at hl
      rcases List.mem_cons.mp hl with hl | hl
      · subst hl
        exact absurd hc (List.not_mem_nil c)
      · exact List.mem_cons_of_mem x (ih l hl c hc)
    · rw [if_neg hx] at hl
      rcases hs : splitNl s' with _ | ⟨y, ys⟩
      · exact absurd hs (splitNl_ne_nil s')
      · rw [hs] at hl
        rcases List.mem_cons.mp hl with hl | hl
        · subst hl
          rcases List.mem_cons.mp hc with hcx | hcy
          · subst hcx
            exact List.mem_cons_self c s'
          · exact List.mem_cons_of_mem x
              (ih y (by rw [hs]; exact List.mem_cons_self y ys) c hcy)
        · exact List.mem_cons_of_mem x
            (ih l (by rw [hs]; exact List.mem_cons_of_mem y hl) c hc)

theorem intercalateNl_cons_of_ne_nil (x : List Char) {L : List (List Char)}
    (hL : L ≠ []) : intercalateNl (x :: L) = x ++ '\n' :: intercalateNl L := by
  cases L with
  | nil => exact absurd rfl hL
  | cons y ys => rfl

theorem intercalateNl_joinLastHead (X S : List (List Char)) :
    intercalateNl (joinLastHead X S) = intercalateNl X ++ intercalateNl S := by
  match X with
  | [] => simp [joinLastHead, intercalateNl]
  | [x] =>
    cases S with
    | nil => simp [joinLastHead, intercalateNl]
    | cons h t =>
      cases t with
      | nil => simp [joinLastHead, intercalateNl]
      | cons u us =>
        rw [show joinLastHead [x] (h :: u :: us) = (x ++ h) :: u :: us from rfl,
          intercalateNl_cons_of_ne_nil (x ++ h) (by simp),
          intercalateNl_cons_of_ne_nil h (by simp)]
        simp [intercalateNl]
  | x :: y :: xs =>
    rw [show joinLastHead (x :: y :: xs) S = x :: joinLastHead (y :: xs) S from rfl,
      intercalateNl_cons_of_ne_nil x (joinLastHead_ne_nil S (by simp)),
      intercalateNl_joinLastHead (y :: xs) S,
      intercalateNl_cons_of_ne_nil x (by simp)]
    simp

theorem intercalateNl_allWs {T : List (List Char)}
    (hT : ∀ l ∈ T, ∀ c ∈ l, wsChar c = true) :
    ∀ c ∈ intercalateNl T, wsChar c = true := by
  induction T with
  | nil => simp [intercalateNl]
  | cons x xs ih =>
    cases xs with
    | nil =>
      rw [intercalateNl]
      exact fun c hc => hT x (by simp) c hc
    | cons y ys =>
      rw [intercalateNl_cons_of_ne_nil x (by simp)]
      intro c hc
      rcases List.mem_append.mp hc with hc | hc
      · exact hT x (by simp) c hc
      · rcases hc with _ | hc
        · exact wsChar_newline
        · rename_i hc
          exact ih (fun l hl => hT l (List.mem_cons_of_mem x hl)) c hc

/-! ## Scanning lemmas -/

theorem scanTitleBody_append_noMarker {A : List (List Char)}
    (L : List (List Char)) (hA : ∀ l ∈ A, marker l = false) :
    scanTitleBody (A ++ L) = scanTitleBody L := by
  induction A with
  | nil => rfl
  | cons x xs ih =>
    rw [List.cons_append, scanTitleBody, hA x (List.mem_cons_self x xs)]
    simp only [Bool.false_eq_true, if_false]
    exact ih (fun l hl => hA l (List.mem_cons_of_mem x hl))

theorem scanTitleBody_of_noMarker {L : List (List Char)}
    (hL : ∀ l ∈ L, marker l = false) : scanTitleBody L = none := by
  induction L with
  | nil => rfl
  | cons x xs ih =>
    rw [scanTitleBody, hL x (List.mem_cons_self x xs)]
    simp only [Bool.false_eq_true, if_false]
    exact ih (fun l hl => hL l (List.mem_cons_of_mem x hl))

theorem bodyOf_allWsTail {T : List (List Char)}
    (hT : ∀ l ∈ T, ∀ c ∈ l, wsChar c = true) : bodyOf T = [] := by
  rw [bodyOf]
  exact pyStrip_allWs (intercalateNl_allWs hT)

theorem bodyOf_joinLastHead_ws (X : List (List Char)) {S : List (List Char)}
    (hS : ∀ l ∈ S, ∀ c ∈ l, wsChar c = true) :
    bodyOf (joinLastHead X S) = bodyOf X := by
  rw [bodyOf, bodyOf, intercalateNl_joinLastHead,
    pyStrip_ws_right _ (intercalateNl_allWs hS)]

theorem scanTitleBody_front {P : List (List Char)} (M : List (List Char))
    (hP : ∀ l ∈ P, ∀ c ∈ l, wsChar c = true) (hM : M ≠ []) :
    scanTitleBody (joinLastHead P M) = scanTitleBody M := by
  match P with
  | [] => rfl
  | [x] =>
    match M with
    | [] => exact absurd rfl hM
    | h :: t =>
      rw [show joinLastHead [x] (h :: t) = (x ++ h) :: t from rfl,
        scanTitleBody, scanTitleBody,
        marker_ws_left h (hP x (List.mem_cons_self x []))]
      by_cases hmk : marker h = true
      · rw [hmk, if_pos rfl, if_pos rfl,
          titleOf_ws_left h (hP x (List.mem_cons_self x []))]
      · rw [Bool.not_eq_true] at hmk
        rw [hmk]
        simp only [Bool.false_eq_true, if_false]
  | x :: y :: xs =>
    rw [show joinLastHead (x :: y :: xs) M = x :: joinLastHead (y :: xs) M from rfl,
      scanTitleBody, marker_allWs (hP x (List.mem_cons_self x (y :: xs)))]
    simp only [Bool.false_eq_true, if_false]
    exact scanTitleBody_front M (fun l hl => hP l (List.mem_cons_of_mem x hl)) hM

theorem scanTitleBody_back {C : List (List Char)} {S : List (List Char)}
    (hC : C ≠ []) (hS : ∀ l ∈ S, ∀ c ∈ l, wsChar c = true) :
    scanTitleBody (joinLastHead C S) = scanTitleBody C := by
  match C with
  | [] => exact absurd rfl hC
  | [x] =>
    match S with
    | [] => rfl
    | h :: t =>
      rw [show joinLastHead [x] (h :: t) = (x ++ h) :: t from rfl,
        scanTitleBody, scanTitleBody,
        marker_ws_right x (hS h (List.mem_cons_self h t))]
      by_cases hmk : marker x = true
      · rw [hmk, if_pos rfl, if_pos rfl,
          titleOf_ws_right x hmk (hS h (List.mem_cons_self h t)),
          bodyOf_allWsTail (fun l hl => hS l (List.mem_cons_of_mem h hl))]
        rfl
      · rw [Bool.not_eq_true] at hmk
        rw [hmk]
        simp only [Bool.false_eq_true, if_false]
        rw [show scanTitleBody ([] : List (List Char)) = none from rfl]
        exact scanTitleBody_of_noMarker
          (fun l hl => marker_allWs (hS l (List.mem_cons_of_mem h hl)))
  | x :: y :: xs =>
    rw [show joinLastHead (x :: y :: xs) S = x :: joinLastHead (y :: xs) S from rfl,
      scanTitleBody, scanTitleBody]
    by_cases hmk : marker x = true
    · rw [hmk, if_pos rfl, if_pos rfl, bodyOf_joinLastHead_ws (y :: xs) hS]
    · rw [Bool.not_eq_true] at hmk
      rw [hmk]
      simp only [Bool.false_eq_true, if_false]
      exact scanTitleBody_back (by simp) hS

theorem scanTitleBody_strip (raw : List Char) :
    scanTitleBody (splitNl (pyStrip raw)) = scanTitleBody (splitNl raw) := by
  have hpre_ws : ∀ c ∈ raw.takeWhile wsChar, wsChar c = true :=
    fun c hc => List.mem_takeWhile_imp hc
  have hsuf_ws : ∀ c ∈ ((raw.dropWhile wsChar).reverse.takeWhile wsChar).reverse,
      wsChar c = true :=
    fun c hc => List.mem_takeWhile_imp (List.mem_reverse.mp hc)
  have hrest : raw.dropWhile wsChar =
      pyStrip raw ++ ((raw.dropWhile wsChar).reverse.takeWhile wsChar).reverse := by
    rw [pyStrip]
    have h := List.takeWhile_append_dropWhile (p := wsChar)
      (l := (raw.dropWhile wsChar).reverse)
    calc raw.dropWhile wsChar
        = (raw.dropWhile wsChar).reverse.reverse := by rw [List.reverse_reverse]
      _ = ((raw.dropWhile wsChar).reverse.takeWhile wsChar ++
            (raw.dropWhile wsChar).reverse.dropWhile wsChar).reverse := by rw [h]
      _ = _ := by rw [List.reverse_append]
  have hraw : raw = raw.takeWhile wsChar ++
      (pyStrip raw ++ ((raw.dropWhile wsChar).reverse.takeWhile wsChar).reverse) := by
    conv_lhs => rw [← List.takeWhile_append_dropWhile (p := wsChar) (l := raw)]
    rw [← hrest]
  conv_rhs => rw [hraw]
  rw [splitNl_append, splitNl_append,
    scanTitleBody_front _
      (fun l hl c hc => hpre_ws c (splitNl_subset l hl c hc))
      (joinLastHead_ne_nil _ (splitNl_ne_nil _)),
    scanTitleBody_back (splitNl_ne_nil _)
      (fun l hl c hc => hsuf_ws c (splitNl_subset l hl c hc))]

theorem extractScan_of_some {L : List (List Char)} (d : List Char)
    {p : List Char × List Char} (h : scanTitleBody L = some p) :
    extractScan d L = p := by
  induction L with
  | nil => exact absurd h (by simp [scanTitleBody])
  | cons x xs ih =>
    rw [scanTitleBody] at h
    rw [extractScan]
    by_cases hmk : marker x = true
    · rw [hmk, if_pos rfl] at h
      rw [hmk, if_pos rfl]
      exact (Option.some_inj.mp h)
    · rw [Bool.not_eq_true] at hmk
      rw [hmk] at h ⊢
      simp only [Bool.false_eq_true, if_false] at h ⊢
      exact ih h

theorem extractScan_of_none {L : List (List Char)} (d : List Char)
    (h : scanTitleBody L = none) :
    extractScan d L = (unknownTitle, d) := by
  induction L with
  | nil => rfl
  | cons x xs ih =>
    rw [scanTitleBody] at h
    rw [extractScan]
    by_cases hmk : marker x = true
    · rw [hmk, if_pos rfl] at h
      exact absurd h (by simp)
    · rw [Bool.not_eq_true] at hmk
      rw [hmk] at h ⊢
      simp only [Bool.false_eq_true, if_false] at h ⊢
      exact ih h

/-- Bridge: the extraction of `analyzer.analyze_paper` agrees with the
spec-side scan over the lines of the raw (unstripped) reply. -/
theorem analyze_extract_of_scan {raw : List Char}
    {p : List Char × List Char} (h : scanTitleBody (splitNl raw) = some p) :
    analyze_extract raw = p := by
  rw [analyze_extract]
  exact extractScan_of_some raw (by rw [scanTitleBody_strip]; exact h)

theorem analyze_extract_of_scan_none {raw : List Char}
    (h : scanTitleBody (splitNl raw) = none) :
    analyze_extract raw = (unknownTitle, raw) := by
  rw [analyze_extract]
  exact extractScan_of_none raw (by rw [scanTitleBody_strip]; exact h)

/-! ## Substring lemmas -/

theorem prefix_split {sub a b : List Char} {c : Char}
    (h : sub <+: a ++ c :: b) (hc : c ∉ sub) : sub <+: a := by
  induction a generalizing sub with
  | nil =>
    cases sub with
    | nil => exact List.nil_prefix
    | cons s ss =>
      exfalso
      rw [List.nil_append, List.cons_prefix_cons] at h
      exact hc (h.1 ▸ List.mem_cons_self s ss)
  | cons x a' ih =>
    cases sub with
    | nil => exact List.nil_prefix
    | cons s ss =>
      rw [List.cons_append, List.cons_prefix_cons] at h
      rw [List.cons_prefix_cons]
      exact ⟨h.1, ih h.2 (fun hm => hc (List.mem_cons_of_mem s hm))⟩

theorem infix_split {sub a b : List Char} {c : Char}
    (h : sub <:+: a ++ c :: b) (hc : c ∉ sub) :
    sub <:+: a ∨ sub <:+: b := by
  induction a generalizing sub with
  | nil =>
    rw [List.nil_append, List.infix_cons_iff] at h
    rcases h with h | h
    · left
      have : sub <+: ([] : List Char) := prefix_split (a := []) h hc
      rw [List.prefix_nil] at this
      subst this
      exact List.nil_infix
    · exact Or.inr h
  | cons x a' ih =>
    rw [List.cons_append, List.infix_cons_iff] at h
    rcases h with h | h
    · left
      exact (prefix_split (a := x :: a') h hc).isInfix
    · rcases ih h hc with h | h
      · exact Or.inl (List.infix_cons h)
      · exact Or.inr h

theorem infix_intercalateNl {sub : List Char} {L : List (List Char)}
    (hsub : sub ≠ []) (hnl : '\n' ∉ sub)
    (h : sub <:+: intercalateNl L) : ∃ x ∈ L, sub <:+: x := by
  match L with
  | [] =>
    rw [show intercalateNl [] = [] from rfl, List.infix_nil] at h
    exact absurd h hsub
  | [x] => exact ⟨x, List.mem_cons_self x [], h⟩
  | x :: y :: ys =>
    rw [intercalateNl_cons_of_ne_nil x (by simp)] at h
    rcases infix_split h hnl with h | h
    · exact ⟨x, List.mem_cons_self x (y :: ys), h⟩
    · obtain ⟨z, hz, hzi⟩ := infix_intercalateNl hsub hnl h
      exact ⟨z, List.mem_cons_of_mem x hz, hzi⟩

/-! ## Truncation lemmas -/

theorem filterMap_range_eq_take {α : Type} (pages : List α) {n : Nat}
    (hn : n ≤ pages.length) :
    (List.range n).filterMap (fun i => pages[i]?) = pages.take n := by
  induction n with
  | zero => simp
  | succ k ih =>
    rw [List.range_succ, List.filterMap_append, ih (Nat.le_of_succ_le hn)]
    have hk : k < pages.length := hn
    rw [List.take_succ]
    simp [List.getElem?_eq_getElem hk]

/-! ## Claim theorems -/

/-- C3: for every document with `P ≥ 1` pages and every page budget
`B ≥ 1`, `truncate_pdf` produces the prefix of the document of length
`min B P`: exactly `B` pages when `B < P` and exactly `P` pages when
`B ≥ P`, in original order starting from page 1. -/
theorem truncate_page_count {α : Type} (pages : List α) (B : Int)
    (hB : 1 ≤ B) (hP : 1 ≤ pages.length) :
    truncate_pdf pages B = pages.take B.toNat ∧
      ((truncate_pdf pages B).length : Int) = min B (pages.length : Int) := by
  have hmin_le : (min B (pages.length : Int)).toNat ≤ pages.length := by
    rw [Int.toNat_le]
    exact min_le_right _ _
  have heq : truncate_pdf pages B =
      pages.take (min B (pages.length : Int)).toNat :=
    filterMap_range_eq_take pages hmin_le
  constructor
  · rw [heq]
    rcases le_total B (pages.length : Int) with h | h
    · rw [min_eq_left h]
    · rw [min_eq_right h, Int.toNat_ofNat, List.take_length,
        List.take_of_length_le]
      rw [← Int.toNat_ofNat pages.length]
      exact Int.toNat_le_toNat h
  · rw [heq, List.length_take, Nat.min_eq_left hmin_le,
      Int.toNat_of_nonneg (le_min (by omega) (by positivity))]

/-- C3 witness: a three-page document truncated to a budget of 2. -/
theorem truncate_page_count_witness :
    truncate_pdf ([10, 20, 30] : List Nat) 2 = [10, 20] ∧
      ((truncate_pdf ([10, 20, 30] : List Nat) 2).length : Int) = min 2 3 := by
  have h := truncate_page_count ([10, 20, 30] : List Nat) 2 (by decide)
    (by decide)
  exact ⟨h.1.trans (by decide), h.2⟩

/-- C4: the `was_truncated` flag of `read_pdf_as_base64` equals
`P > B` exactly when a budget `B` is supplied; with no budget the flag is
`false` and the full document is used. -/
theorem was_truncated_correct {α : Type} (pages : List α) (m : Int) :
    (read_pdf_as_base64 pages (some m)).2.2 =
        decide ((pages.length : Int) > m) ∧
      (read_pdf_as_base64 pages none).2.2 = false ∧
      (read_pdf_as_base64 pages none).1 = pages := by
  refine ⟨?_, rfl, rfl⟩
  rw [read_pdf_as_base64]
  by_cases h : (pages.length : Int) > m
  · rw [if_pos h]
    simp [h]
  · rw [if_neg h]
    simp [h]

/-- C1: when every remote call fails with a message matching the
input-too-large signature and the first attempt's input was not truncated,
the controller re-reads the PDF with the fallback budget of
`DEFAULT_MAX_PAGES = 50`, retries exactly once (two remote calls in
total) and propagates the retry's failure. -/
theorem retry_exactly_twice {α : Type} (pages : List α)
    (max_pages : Option Int)
    (provider : Nat → Except (List Char) (List Char))
    (errs : Nat → List Char)
    (hp : ∀ n, provider n = .error (errs n))
    (hsig : ∀ n, tokenLimitSig (errs n) = true)
    (hnt : (read_pdf_as_base64 pages max_pages).2.2 = false) :
    (cmd_analyze_core pages max_pages provider).1 =
        [(read_pdf_as_base64 pages max_pages).1,
          (read_pdf_as_base64 pages (some DEFAULT_MAX_PAGES)).1] ∧
      (cmd_analyze_core pages max_pages provider).1.length = 2 ∧
      (cmd_analyze_core pages max_pages provider).2 = .error (errs 1) := by
  have h0 := hp 0
  have h1 := hp 1
  simp only [cmd_analyze_core, h0, h1, hsig 0, hnt]
  simp

/-- C1 witness: a provider that always fails with a token-limit message is
called exactly twice. -/
theorem retry_exactly_twice_witness :
    (cmd_analyze_core ([0, 1, 2] : List Nat) none
          (fun _ => .error "Request is too long: token limit exceeded".toList)).1 =
        [[0, 1, 2], [0, 1, 2]] ∧
      (cmd_analyze_core ([0, 1, 2] : List Nat) none
          (fun _ => .error "Request is too long: token limit exceeded".toList)).1.length = 2 ∧
      (cmd_analyze_core ([0, 1, 2] : List Nat) none
          (fun _ => .error "Request is too long: token limit exceeded".toList)).2 =
        .error "Request is too long: token limit exceeded".toList := by
  have hs : tokenLimitSig "Request is too long: token limit exceeded".toList =
      true := by decide
  have h := retry_exactly_twice ([0, 1, 2] : List Nat) none
    (fun _ => .error "Request is too long: token limit exceeded".toList)
    (fun _ => "Request is too long: token limit exceeded".toList)
    (fun _ => rfl) (fun _ => hs) rfl
  exact ⟨h.1.trans (by decide), h.2.1, h.2.2⟩

/-- C5: a first-attempt failure whose message does not match the
input-too-large signature is propagated immediately after exactly one
remote call. -/
theorem no_retry_on_other_failure {α : Type} (pages : List α)
    (max_pages : Option Int)
    (provider : Nat → Except (List Char) (List Char)) (e : List Char)
    (hp0 : provider 0 = .error e) (hsig : tokenLimitSig e = false) :
    (cmd_analyze_core pages max_pages provider).1 =
        [(read_pdf_as_base64 pages max_pages).1] ∧
      (cmd_analyze_core pages max_pages provider).1.length = 1 ∧
      (cmd_analyze_core pages max_pages provider).2 = .error e := by
  simp only [cmd_analyze_core, hp0, hsig]
  simp

/-- C5 witness: an authentication failure triggers no retry. -/
theorem no_retry_on_other_failure_witness :
    (cmd_analyze_core ([0, 1, 2] : List Nat) none
          (fun _ => .error "Invalid API key".toList)).1 = [[0, 1, 2]] ∧
      (cmd_analyze_core ([0, 1, 2] : List Nat) none
          (fun _ => .error "Invalid API key".toList)).1.length = 1 ∧
      (cmd_analyze_core ([0, 1, 2] : List Nat) none
          (fun _ => .error "Invalid API key".toList)).2 =
        .error "Invalid API key".toList := by
  have h := no_retry_on_other_failure ([0, 1, 2] : List Nat) none
    (fun _ => .error "Invalid API key".toList) "Invalid API key".toList
    rfl (by decide)
  exact ⟨h.1.trans (by decide), h.2.1, h.2.2⟩

/-- C2: whenever the reply has a line whose trimmed, case-insensitive form
starts with `TITLE:` (as captured by the spec-side scan `scanTitleBody`
over the lines of the raw reply), the extraction returns the text after
the first colon of the first such line, trimmed, as the title, and the
lines strictly after it, rejoined and trimmed, as the body. -/
theorem title_extraction (raw t b : List Char)
    (h : scanTitleBody (splitNl raw) = some (t, b)) :
    analyze_extract raw = (t, b) :=
  analyze_extract_of_scan h

/-- C2 witness: a lower-case `title:` marker is recognized the same as an
upper-case one. -/
theorem title_extraction_witness :
    scanTitleBody (splitNl "title: Lower Case Title\n\nContent".toList) =
        some ("Lower Case Title".toList, "Content".toList) ∧
      analyze_extract "title: Lower Case Title\n\nContent".toList =
        ("Lower Case Title".toList, "Content".toList) :=
  ⟨by decide, title_extraction _ _ _ (by decide)⟩

/-- C6 counterexample: for the reply `" Just analysis, no marker "`, which
contains no marker line, the returned body is the raw reply with its
surrounding whitespace intact, not the trimmed reply the claim requires. -/
theorem default_body_not_trimmed :
    (∀ l ∈ splitNl " Just analysis, no marker ".toList, marker l = false) ∧
      analyze_extract " Just analysis, no marker ".toList ≠
        (unknownTitle, pyStrip " Just analysis, no marker ".toList) := by
  constructor
  · decide
  · decide

/-- C6 (amended): when no line of the reply matches the marker, the title
is `"Unknown Title"` and the body is the full reply unchanged (not
trimmed). -/
theorem default_body_unchanged (raw : List Char)
    (h : ∀ l ∈ splitNl raw, marker l = false) :
    analyze_extract raw = (unknownTitle, raw) :=
  analyze_extract_of_scan_none (scanTitleBody_of_noMarker h)

/-- C6 witness: a marker-free reply with surrounding whitespace is
returned unchanged. -/
theorem default_body_unchanged_witness :
    (∀ l ∈ splitNl "  a reply with no heading  ".toList, marker l = false) ∧
      analyze_extract "  a reply with no heading  ".toList =
        (unknownTitle, "  a reply with no heading  ".toList) :=
  ⟨by decide, default_body_unchanged _ (by decide)⟩

/-- C7 counterexample: the reply `"TITLE: A\nTITLE: B"` contains a marker
line, yet the produced body still contains the substring `"TITLE:"` (only
the first marker line is removed). -/
theorem body_leaks_marker :
    (∃ l ∈ splitNl "TITLE: A\nTITLE: B".toList, marker l = true) ∧
      "TITLE:".toList <:+: (analyze_extract "TITLE: A\nTITLE: B".toList).2 := by
  constructor
  · decide
  · decide

/-- C7 (amended): for a reply containing a marker line, the produced body
contains the substring `"TITLE:"` only if some line strictly after the
first marker line contains it; when no such later line does, the body is
free of the marker. -/
theorem no_marker_leakage (raw : List Char) (P : List (List Char))
    (l : List Char) (T : List (List Char))
    (hsplit : splitNl raw = P ++ l :: T)
    (hP : ∀ x ∈ P, marker x = false)
    (hl : marker l = true)
    (hT : ∀ x ∈ T, ¬ ("TITLE:".toList <:+: x)) :
    ¬ ("TITLE:".toList <:+: (analyze_extract raw).2) := by
  have hscan : scanTitleBody (splitNl raw) = some (titleOf l, bodyOf T) := by
    rw [hsplit, scanTitleBody_append_noMarker _ hP, scanTitleBody, hl,
      if_pos rfl]
  rw [analyze_extract_of_scan hscan]
  intro hin
  have h1 : "TITLE:".toList <:+: intercalateNl T :=
    hin.trans (pyStrip_isInfix _)
  obtain ⟨x, hx, hxi⟩ := infix_intercalateNl (by decide) (by decide) h1
  exact hT x hx hxi

/-- C7 witness: a single marker line followed by plain body text leaves no
`"TITLE:"` in the body. -/
theorem no_marker_leakage_witness :
    splitNl "TITLE: A\nBody text".toList =
        [] ++ "TITLE: A".toList :: ["Body text".toList] ∧
      marker "TITLE: A".toList = true ∧
      ¬ ("TITLE:".toList <:+: (analyze_extract "TITLE: A\nBody text".toList).2) :=
  ⟨by decide, by decide,
    no_marker_leakage "TITLE: A\nBody text".toList [] "TITLE: A".toList
      ["Body text".toList] (by decide) (by decide) (by decide) (by decide)⟩

/-- C8: a provider constructed without an explicit model id resolves to
the variant's documented default, and `get_model_info` reports
`"<DisplayName> (<default id>)"`; a non-empty explicit model id overrides
the default. -/
theorem model_resolution (kind : ProviderKind) (key : List Char)
    (m : List Char) (hm : m ≠ []) :
    get_model_info (mkProvider kind key none) =
        provider_name kind ++ " (".toList ++ default_model kind ++ ")".toList ∧
      (mkProvider kind key (some m)).model = m ∧
      get_model_info (mkProvider kind key (some m)) =
        provider_name kind ++ " (".toList ++ m ++ ")".toList := by
  have hne : m.isEmpty = false := by
    cases m with
    | nil => exact absurd rfl hm
    | cons c cs => rfl
  refine ⟨rfl, ?_, ?_⟩ <;> simp [mkProvider, get_model_info, hne]

/-- C8 witness: the Anthropic variant with and without an explicit model
id. -/
theorem model_resolution_witness :
    get_model_info (mkProvider .anthropic [] none) =
        provider_name .anthropic ++ " (".toList ++
          default_model .anthropic ++ ")".toList ∧
      (mkProvider .anthropic [] (some "my-model".toList)).model =
        "my-model".toList ∧
      get_model_info (mkProvider .anthropic [] (some "my-model".toList)) =
        provider_name .anthropic ++ " (".toList ++ "my-model".toList ++
          ")".toList :=
  model_resolution .anthropic [] "my-model".toList (by decide)

/-- C9: the orchestrator performs exactly one remote call, with exactly
the arguments `(pdf_base64, filename, ANALYSIS_PROMPT)`; it returns the
provider unchanged; and two invocations whose providers return the
identical reply and report the same model info produce equal results. -/
theorem analyze_paper_pure (p q : OrchProvider)
    (pdf_base64 filename : List Char) :
    (analyze_paper p pdf_base64 filename).2.1 = p ∧
      (analyze_paper p pdf_base64 filename).2.2 =
        [(pdf_base64, filename, ANALYSIS_PROMPT)] ∧
      (analyze_paper p pdf_base64 filename).2.2.length = 1 ∧
      (p.analyze pdf_base64 filename ANALYSIS_PROMPT =
          q.analyze pdf_base64 filename ANALYSIS_PROMPT →
        p.modelInfo = q.modelInfo →
        (analyze_paper p pdf_base64 filename).1 =
          (analyze_paper q pdf_base64 filename).1) := by
  refine ⟨rfl, rfl, rfl, ?_⟩
  intro hreply hinfo
  simp [analyze_paper, hreply, hinfo]

/-- C9 witness: two providers returning the same reply yield identical
results and a single logged call. -/
theorem analyze_paper_pure_witness :
    (analyze_paper ⟨fun _ _ _ => "TITLE: T\nB".toList, "M (m)".toList⟩
          "pdf".toList "f.pdf".toList).2.2.length = 1 ∧
      (analyze_paper ⟨fun _ _ _ => "TITLE: T\nB".toList, "M (m)".toList⟩
          "pdf".toList "f.pdf".toList).1 =
        (analyze_paper ⟨fun _ _ _ => "TITLE: T\nB".toList, "M (m)".toList⟩
          "pdf".toList "f.pdf".toList).1 := by
  have h := analyze_paper_pure
    ⟨fun _ _ _ => "TITLE: T\nB".toList, "M (m)".toList⟩
    ⟨fun _ _ _ => "TITLE: T\nB".toList, "M (m)".toList⟩
    "pdf".toList "f.pdf".toList
  exact ⟨h.2.2.1, h.2.2.2 rfl rfl⟩

/-- C10: `is_configured` is true exactly when the resolved (environment
over file) OpenAI or Anthropic key is present and non-empty; the loader
passes the OpenRouter file key through untouched, and neither an
OpenRouter file key nor the `OPENROUTER_API_KEY` environment variable can
change the result. -/
theorem is_configured_iff (file : Config) (env : Env)
    (v w : Option (List Char)) :
    is_configured file env =
        (truthy (envOverlay env.openai_key file.openai_api_key) ||
          truthy (envOverlay env.anthropic_key file.anthropic_api_key)) ∧
      (load_config file env).openrouter_api_key = file.openrouter_api_key ∧
      is_configured { file with openrouter_api_key := v }
          { env with openrouter_key := w } = is_configured file env :=
  ⟨rfl, rfl, rfl⟩

end FluffCutter
